import Mathlib

/-!
Verification development for the stream-reconciliation core of
`plugin.video.ElBarcoDeSabetOnline` (`core.py`).

The Python source is shallowly embedded as executable Lean definitions:

* pure string manipulation (`str.replace`, `str.strip`, f-string labels) is
  modelled over `List Char` / `String`;
* network effects (`requests.get`, proxy fetching) are modelled by passing the
  fetch results as explicit oracle parameters;
* the `difflib.get_close_matches`-based similarity lookup
  (`find_closest_channel`) is an external standard-library collaborator and is
  modelled as an explicit function parameter `closest`; it returns `none`
  exactly when every pool entry scores below the 0.5 cutoff, and otherwise
  some element of the pool;
* `BeautifulSoup` / `re.findall` parsing of raw markup is modelled by passing
  the parsed pieces (anchor pairs, day sections) as explicit inputs;
* the JSON cache file is modelled as an optional stored JSON value
  (`json.dump` / `json.load` round-trip exactly on these values).
-/

namespace Barco

/-- Model of Python `str.replace(pat, rep)` on character lists: left-to-right,
non-overlapping, single pass over the original string. -/
def replaceAll (pat rep : List Char) : List Char → List Char
  | [] => []
  | c :: cs =>
    if (!pat.isEmpty) && pat.isPrefixOf (c :: cs) then
      rep ++ replaceAll pat rep (cs.drop (pat.length - 1))
    else
      c :: replaceAll pat rep cs
termination_by s => s.length
decreasing_by
  · simp only [List.length_cons]
    have h := List.length_drop (pat.length - 1) cs
    omega
  · simp only [List.length_cons]
    omega

/-- Model of Python `str.strip()`: drop leading and trailing whitespace. -/
def pyStrip (s : String) : String :=
  (((s.toList.dropWhile Char.isWhitespace).reverse.dropWhile Char.isWhitespace).reverse).asString

/-- One schedule row (`Event` dataclass in `core.py`). -/
structure Event where
  day : String
  time : String
  event : String
  channel : String
  sport : String
deriving DecidableEq, Repr

/-- The scheme rewritten away by `extract_program_links` / `extract_channel_links`. -/
def acePre : String := "acestream://"

/-- The play-handler scheme that replaces `acestream://`. -/
def playPre : String := "plugin://script.module.horus?action=play&id="

/-- Model of `enlace.replace("acestream://", "plugin://script.module.horus?action=play&id=")`. -/
def rewriteLink (e : String) : String :=
  (replaceAll acePre.toList playPre.toList e.toList).asString

/-- Raw titles extracted from the anchor pairs: `titulos.append(titulo.strip())`.
The parameter `patrones` stands for the result of
`re.findall(r'<a href="(acestream://[^"]+)"[^>]*>(.*?)</a>', html)`. -/
def anchorTitles (patrones : List (String × String)) : List String :=
  patrones.map (fun q => pyStrip q.2)

/-- The `enlaces` dict built in the same loop: `enlaces[titulo.strip()] = nuevo_enlace`.
Represented as an association list in insertion order. -/
def anchorDict (patrones : List (String × String)) : List (String × String) :=
  patrones.map (fun q => (pyStrip q.2, rewriteLink q.1))

/-- Python dict lookup where later assignments overwrite earlier ones:
the value of the last pair with the given key. -/
def dictLookup (d : List (String × String)) (k : String) : Option String :=
  (d.reverse.find? (fun kv => kv.1 == k)).map (fun kv => kv.2)

/-- Total variant of `dictLookup`; `core.py` only performs lookups guarded by
membership of the key in `titulos`, where the key is always present. -/
def lookupLink (d : List (String × String)) (k : String) : String :=
  (dictLookup d k).getD ""

/-- The characters of the quality marker "720". -/
def q720 : List Char := ['7', '2', '0']

/-- The characters of the quality marker "1080". -/
def q1080 : List Char := ['1', '0', '8', '0']

/-- Quality stripping of one raw title:
`title.replace("720", "").replace("1080", "")` (line 233). -/
def stripQuality (t : String) : String :=
  (replaceAll q1080 [] (replaceAll q720 [] t.toList)).asString

/-- The normalized comparison pool
`titulos_without_quality = [title.replace("720", "").replace("1080", "") for title in titulos]`. -/
def titulos_without_quality (titulos : List String) : List String :=
  titulos.map stripQuality

/-- Tagged reconciled row (the spec's `ReconciledEntry`): a day separator, a
playable item (label, link), or the unmatched diagnostic row for an event. -/
inductive RE where
  | sep : String → RE
  | play : String → String → RE
  | unmatched : Event → RE
deriving DecidableEq, Repr

/-- Label of a playable row:
`f"{program.sport} {program.time} {program.event} ({variant})"`. -/
def labelFor (p : Event) (v : String) : String :=
  p.sport ++ " " ++ p.time ++ " " ++ p.event ++ " (" ++ v ++ ")"

/-- Link string of a reconciled row as appended to `new_enlaces`. -/
def linkOf : RE → String
  | RE.sep d => "# " ++ d
  | RE.play _ link => link
  | RE.unmatched p =>
      "# No matching channel for " ++ p.event ++ ", this was the channel: " ++ p.channel

/-- Title string of a reconciled row as appended to `new_titulos`. -/
def titleOf : RE → String
  | RE.sep d => "# " ++ d
  | RE.play label _ => label
  | RE.unmatched p =>
      p.sport ++ " " ++ p.time ++ " " ++ p.event ++ " - No match for " ++ p.channel

/-- Resolution of the base title for one event (lines 239-245): the literal
alias shortcut for "Movistar Plus+", otherwise `find_closest_channel` (the
`closest` oracle, standing for `difflib.get_close_matches(..., n=1, cutoff=0.5)`). -/
def closestBase (closest : String → List String → Option String)
    (pool : List String) (p : Event) : Option String :=
  if p.channel = "Movistar Plus+" then some "M.Plus 1080" else closest p.channel pool

/-- The quality loop (lines 248-255): `for quality in ["720", "1080"]`. -/
def qualityRows (titulos : List String) (enl : List (String × String))
    (p : Event) (base : String) : List RE :=
  (["720", "1080"].flatMap fun q =>
    if (base ++ q) ∈ titulos then
      [RE.play (labelFor p (base ++ q)) (lookupLink enl (base ++ q))]
    else [])

/-- Rows contributed by one event after base resolution (lines 246-264).
The outer guard models Python truthiness of `if closest_tvg_id:` (both `None`
and the empty string are falsy); the final `if rows.isEmpty` models the
`if not found:` placeholder append, which sits inside that guard. -/
def entriesFor (titulos : List String) (enl : List (String × String))
    (closest : String → List String → Option String) (p : Event) : List RE :=
  match closestBase closest (titulos_without_quality titulos) p with
  | none => []
  | some base =>
    if base = "" then []
    else
      let rows := qualityRows titulos enl p base ++
        (if base ∈ titulos then [RE.play (labelFor p base) (lookupLink enl base)] else [])
      if rows.isEmpty then [RE.unmatched p] else rows

/-- The reconciliation loop over `self.tv_programs` (lines 234-264), carrying
`last_date` and emitting a day separator whenever `program.day != last_date`. -/
def reconcileAux (titulos : List String) (enl : List (String × String))
    (closest : String → List String → Option String) :
    Option String → List Event → List RE
  | _, [] => []
  | last, p :: ps =>
    (if some p.day ≠ last then [RE.sep p.day] else []) ++
      entriesFor titulos enl closest p ++
      reconcileAux titulos enl closest (some p.day) ps

/-- Tagged view of the whole second phase of `extract_program_links`. -/
def reconcileEntries (patrones : List (String × String)) (programs : List Event)
    (closest : String → List String → Option String) : List RE :=
  reconcileAux (anchorTitles patrones) (anchorDict patrones) closest none programs

/-- Links contributed by one event to `new_enlaces` (direct translation of the
appends to that list alone). -/
def linksFor (titulos : List String) (enl : List (String × String))
    (closest : String → List String → Option String) (p : Event) : List String :=
  match closestBase closest (titulos_without_quality titulos) p with
  | none => []
  | some base =>
    if base = "" then []
    else
      let ls := (["720", "1080"].flatMap fun q =>
          if (base ++ q) ∈ titulos then [lookupLink enl (base ++ q)] else []) ++
        (if base ∈ titulos then [lookupLink enl base] else [])
      if ls.isEmpty then
        ["# No matching channel for " ++ p.event ++ ", this was the channel: " ++ p.channel]
      else ls

/-- Titles contributed by one event to `new_titulos`. -/
def titlesFor (titulos : List String) (_enl : List (String × String))
    (closest : String → List String → Option String) (p : Event) : List String :=
  match closestBase closest (titulos_without_quality titulos) p with
  | none => []
  | some base =>
    if base = "" then []
    else
      let ts := (["720", "1080"].flatMap fun q =>
          if (base ++ q) ∈ titulos then [labelFor p (base ++ q)] else []) ++
        (if base ∈ titulos then [labelFor p base] else [])
      if ts.isEmpty then
        [p.sport ++ " " ++ p.time ++ " " ++ p.event ++ " - No match for " ++ p.channel]
      else ts

/-- The two parallel output lists of `extract_program_links`, built append by
append as in the source. -/
def progAux (titulos : List String) (enl : List (String × String))
    (closest : String → List String → Option String) :
    Option String → List Event → List String × List String
  | _, [] => ([], [])
  | last, p :: ps =>
    let rest := progAux titulos enl closest (some p.day) ps
    ((if some p.day ≠ last then ["# " ++ p.day] else []) ++
       linksFor titulos enl closest p ++ rest.1,
     (if some p.day ≠ last then ["# " ++ p.day] else []) ++
       titlesFor titulos enl closest p ++ rest.2)

/-- `extract_program_links` (lines 216-267): returns `(new_enlaces, new_titulos)`.
`patrones` is the anchor list found by the regex; `programs` is
`self.tv_programs`; `closest` is the `find_closest_channel` collaborator. -/
def extract_program_links (patrones : List (String × String)) (programs : List Event)
    (closest : String → List String → Option String) : List String × List String :=
  progAux (anchorTitles patrones) (anchorDict patrones) closest none programs

/-- Model of Python `s[-4:]`: the last `n` characters (whole string if shorter). -/
def lastChars (n : Nat) (s : String) : String :=
  s.drop (s.length - n)

/-- `extract_channel_links` (lines 269-284): every anchor yields one rewritten
link and one label suffixed with the last 4 characters of the stream id
(`enlace.split("://")[1][-4:]`). -/
def extract_channel_links (patrones : List (String × String)) : List String × List String :=
  match patrones with
  | [] => ([], [])
  | (enlace, titulo) :: rest =>
    let r := extract_channel_links rest
    (rewriteLink enlace :: r.1,
     (pyStrip titulo ++ " " ++ lastChars 4 ((enlace.splitOn "://").getD 1 "")) :: r.2)

/-! ## ProxyAcquirer: `fetch_proxies`, `filter_asian_proxies`, `update_list` -/

/-- The `ip_data` object of one proxy-list entry. -/
structure IpData where
  continentCode : Option String
deriving DecidableEq, Repr

/-- One entry of the remote proxy list (`{proxy, ip_data}`). -/
structure ProxyEntry where
  proxy : String
  ip_data : Option IpData
deriving DecidableEq, Repr

/-- `filter_asian_proxies` (lines 181-188): keep the `proxy` field of entries
whose `ip_data` is present and has `continentCode == "AS"`. -/
def filter_asian_proxies (proxies : List ProxyEntry) : List String :=
  proxies.filterMap fun p =>
    match p.ip_data with
    | some d => if d.continentCode = some "AS" then some p.proxy else none
    | none => none

/-- The primary URL selected in `update_list` (`selection = 0`, "Servidor Principal"). -/
def url_selected : String := "https://elcano.top"

/-- The secondary URL tried on line 337. -/
def fallback_url : String := "https://viendoelfutbolporlaface.pages.dev/"

/-- Python truthiness of the optional response text from `get_web_content`:
`None` and the empty string are falsy. -/
def truthyO (c : Option String) : Bool :=
  match c with
  | none => false
  | some s => if s = "" then false else true

/-- The proxy loop of `update_list` (lines 319-325): try each Asian proxy in
order, breaking on the first truthy response.  `g url proxy` stands for
`get_web_content(url, proxy)` with its network result. -/
def proxyChain (g : String → Option String → Option String) : List String → Option String
  | [] => none
  | p :: ps =>
    let c := g url_selected (some p)
    if truthyO c then c else proxyChain g ps

/-- Lines 334-344 of `update_list`: if the content variable is still falsy,
fetch the secondary URL directly; a falsy result there returns the empty
dict (modelled as `none`). -/
def afterFallback (g : String → Option String → Option String) (c : Option String) :
    Option String :=
  let c2 := if truthyO c then c else g fallback_url none
  if truthyO c2 then c2 else none

/-- The acquisition phase of `update_list` (lines 306-344): direct fetch of
`url_selected`; on a falsy result, the proxy loop, whose `for ... else`
clause returns the empty dict when no proxy yields truthy content. -/
def acquire (g : String → Option String → Option String) (asian : List String) :
    Option String :=
  let c0 := g url_selected none
  if truthyO c0 then afterFallback g c0
  else
    match proxyChain g asian with
    | some s => afterFallback g (some s)
    | none => none

/-- The persisted snapshot (`cache_data`, lines 355-362). -/
structure Snapshot where
  enlaces_eventos : List String
  titulos_eventos : List String
  enlaces_canal : List String
  titulos_canal : List String
  origen : String
  fecha : String
deriving DecidableEq, Repr

/-- Construction of `cache_data` from fetched content (lines 346-362).
`parseA` stands for the regex anchor scan applied to the content, `now` for
`time.strftime("%Y-%m-%d %H:%M:%S")`. -/
def buildSnapshot (parseA : String → List (String × String)) (programs : List Event)
    (closest : String → List String → Option String) (content now : String) : Snapshot :=
  let pe := extract_program_links (parseA content) programs closest
  let pc := extract_channel_links (parseA content)
  ⟨pe.1, pe.2, pc.1, pc.2, "Servidor Principal", now⟩

/-- `update_list` (lines 286-366).  `proxies` is the fetched proxy list
(`fetch_proxies(PROXIES_URL)`); an empty list returns the empty dict at once
(lines 298-302, modelled as `none`).  Otherwise the acquisition phase runs and
a truthy content string is reconciled and cached. -/
def update_list (proxies : List ProxyEntry) (g : String → Option String → Option String)
    (parseA : String → List (String × String)) (programs : List Event)
    (closest : String → List String → Option String) (now : String) : Option Snapshot :=
  match proxies with
  | [] => none
  | _ :: _ =>
    match acquire g (filter_asian_proxies proxies) with
    | none => none
    | some content => some (buildSnapshot parseA programs closest content now)

/-! ## ScheduleScraper: `get_tv_programs` -/

/-- The four optional sub-element texts of one schedule row
(`dailyhour`, `dailyteams`, `dailychannel`, `dailyday`). -/
structure RowTags where
  timeTag : Option String
  nameTag : Option String
  channelTag : Option String
  sportTag : Option String
deriving DecidableEq, Repr

/-- One `li.content-item` day block: its optional `title-section-widget` span
text and its `li.dailyevent` rows. -/
structure DaySection where
  daySpan : Option String
  rows : List RowTags
deriving DecidableEq, Repr

/-- One parsed event row (lines 88-98): each absent sub-element defaults to
the sentinel "N/A", present ones are stripped. -/
def rowEvent (day : String) (r : RowTags) : Event :=
  ⟨day, (r.timeTag.map pyStrip).getD "N/A", (r.nameTag.map pyStrip).getD "N/A",
   (r.channelTag.map pyStrip).getD "N/A", (r.sportTag.map pyStrip).getD "N/A"⟩

/-- Events of one day section: sections without a day span are skipped
(`continue`, line 77-78). -/
def sectionEvents (s : DaySection) : List Event :=
  match s.daySpan with
  | none => []
  | some d => s.rows.map (rowEvent (pyStrip d))

/-- All candidate events in document order; the first day section is
unconditionally dropped (`day_sections = day_sections[1:]`, line 73). -/
def rawEvents (sections : List DaySection) : List Event :=
  (sections.drop 1).flatMap sectionEvents

/-- The tuple identity used for deduplication (line 95). -/
def eventKey (e : Event) : String × String × String × String :=
  (e.day, e.time, e.event, e.channel)

/-- The `seen_events` deduplication loop (lines 95-100): first occurrence of a
key is kept, later ones are dropped. -/
def dedupAux : List (String × String × String × String) → List Event → List Event
  | _, [] => []
  | seen, e :: es =>
    if eventKey e ∈ seen then dedupAux seen es
    else e :: dedupAux (eventKey e :: seen) es

/-- `get_tv_programs` (lines 61-107) on the parsed day sections. -/
def get_tv_programs (sections : List DaySection) : List Event :=
  dedupAux [] (rawEvents sections)

/-! ## CacheStore: `load_cache`, `save_cache` -/

/-- JSON values as written and read by the cache (`json.dump` / `json.load`
round-trip exactly on the values the cache stores). -/
inductive Json where
  | jstr : String → Json
  | jarr : List Json → Json
  | jobj : List (String × Json) → Json

/-- Lookup of a key in a JSON object (keys written by `json.dump` are unique). -/
def jlookup : List (String × Json) → String → Option Json
  | [], _ => none
  | (k', v) :: rest, k => if k' = k then some v else jlookup rest k

/-- The JSON encoding of `cache_data` (lines 355-362). -/
def encodeSnapshot (s : Snapshot) : Json :=
  Json.jobj
    [("enlaces_eventos", Json.jarr (s.enlaces_eventos.map Json.jstr)),
     ("titulos_eventos", Json.jarr (s.titulos_eventos.map Json.jstr)),
     ("enlaces_canal", Json.jarr (s.enlaces_canal.map Json.jstr)),
     ("titulos_canal", Json.jarr (s.titulos_canal.map Json.jstr)),
     ("origen", Json.jstr s.origen),
     ("fecha", Json.jstr s.fecha)]

/-- Read back a list of strings from a JSON array. -/
def allStrings : List Json → Option (List String)
  | [] => some []
  | Json.jstr s :: rest => (allStrings rest).map (fun l => s :: l)
  | _ => none

/-- Field-wise decoding of a snapshot from a loaded JSON value. -/
def decodeSnapshot (j : Json) : Option Snapshot :=
  match j with
  | Json.jobj kvs =>
    match jlookup kvs "enlaces_eventos", jlookup kvs "titulos_eventos",
      jlookup kvs "enlaces_canal", jlookup kvs "titulos_canal",
      jlookup kvs "origen", jlookup kvs "fecha" with
    | some (Json.jarr a), some (Json.jarr b), some (Json.jarr c), some (Json.jarr d),
      some (Json.jstr o), some (Json.jstr f) =>
      match allStrings a, allStrings b, allStrings c, allStrings d with
      | some ea, some ta, some ec, some tc => some ⟨ea, ta, ec, tc, o, f⟩
      | _, _, _, _ => none
    | _, _, _, _, _, _ => none
  | _ => none

/-- `save_cache` (lines 130-137): overwrite the cache file with the JSON
serialization of `data`, regardless of the previous state. -/
def save_cache (_prev : Option Json) (data : Json) : Option Json :=
  some data

/-- `load_cache` (lines 118-128): parse the cache file if present; a missing
file yields the empty dict. -/
def load_cache (st : Option Json) : Json :=
  match st with
  | some j => j
  | none => Json.jobj []

/-- Recognizer of day-separator rows. -/
def isSep : RE → Bool
  | RE.sep _ => true
  | _ => false

/-- Recognizer of unmatched-diagnostic rows. -/
def isUnmatched : RE → Bool
  | RE.unmatched _ => true
  | _ => false

/-- Day values at which the loop emits a separator: one at every position
where the day differs from the previous event's day (with the given initial
`last_date`). -/
def dayBoundaries : Option String → List String → List String
  | _, [] => []
  | last, d :: ds => (if some d ≠ last then [d] else []) ++ dayBoundaries (some d) ds

/-- Modelled from the spec: step 4 "variant resolution" of §4.4 — for each
quality marker in the fixed order 720 then 1080, if `base+marker` exists in
the raw-title set, one playable row with that variant's link and the label
`"{sport} {time} {title} (base+marker)"`; additionally and independently, one
more playable row when the unsuffixed base itself exists. -/
def specFanOut (titulos : List String) (enl : List (String × String))
    (p : Event) (base : String) : List RE :=
  (if (base ++ "720") ∈ titulos then
      [RE.play (labelFor p (base ++ "720")) (lookupLink enl (base ++ "720"))] else []) ++
  (if (base ++ "1080") ∈ titulos then
      [RE.play (labelFor p (base ++ "1080")) (lookupLink enl (base ++ "1080"))] else []) ++
  (if base ∈ titulos then [RE.play (labelFor p base) (lookupLink enl base)] else [])

/-- Modelled from the spec: stripping a quality marker only when it occurs as
a trailing suffix of the raw title (the reading that C10 rules out). -/
def specStripTrailingL (t : List Char) : List Char :=
  if q720.isSuffixOf t then t.take (t.length - 3)
  else if q1080.isSuffixOf t then t.take (t.length - 4)
  else t

/-! ## Concrete inputs used by counterexamples and witnesses -/

/-- A closest-match oracle that finds nothing; it is the value
`find_closest_channel` takes whenever every pool entry scores below the 0.5
cutoff — in particular it is forced when the pool is empty, for any
similarity measure, since `difflib.get_close_matches` only returns pool
elements. -/
def noMatch : String → List String → Option String := fun _ _ => none

/-- An event on a channel textually unrelated to any pool entry. -/
def evX : Event := ⟨"Lunes", "10:00", "Derbi", "Canal X", "Futbol"⟩

/-- Events with interleaved days: Lunes, Martes, Lunes again. -/
def evA1 : Event := ⟨"Lunes", "10:00", "Partido A", "Canal Uno", "Futbol"⟩

/-- Second event of the interleaving example (day Martes). -/
def evB2 : Event := ⟨"Martes", "11:00", "Partido B", "Canal Dos", "Futbol"⟩

/-- Third event of the interleaving example (day Lunes again). -/
def evA3 : Event := ⟨"Lunes", "12:00", "Partido C", "Canal Tres", "Futbol"⟩

/-- An event on the aliased channel. -/
def evMov : Event := ⟨"Lunes", "22:00", "Estreno", "Movistar Plus+", "Cine"⟩

/-- The spec's fan-out example event (channel "Real Madrid TV"). -/
def evRM : Event := ⟨"Lunes", "21:00", "El Clasico", "Real Madrid TV", "Futbol"⟩

/-- The spec's fan-out example raw-title pool. -/
def tRM : List String := ["RealMadridTV720", "RealMadridTV1080"]

/-- Links for the fan-out example pool. -/
def enlRM : List (String × String) :=
  [("RealMadridTV720", "plugin720"), ("RealMadridTV1080", "plugin1080")]

/-- A closest-match oracle matching the fan-out example
(`difflib` similarity of "Real Madrid TV" and "RealMadridTV" is above 0.5). -/
def closeRM : String → List String → Option String := fun _ _ => some "RealMadridTV"

/-- A fetch oracle for which every request returns a nonempty body. -/
def gOk : String → Option String → Option String := fun _ _ => some "body"

/-- A fetch oracle for which only the secondary URL returns content. -/
def gMirror : String → Option String → Option String :=
  fun url _ => if url = fallback_url then some "mirror body" else none

/-- An anchor scan finding no anchors. -/
def parse0 : String → List (String × String) := fun _ => []

/-- A one-element proxy list whose entry is Asian. -/
def proxies1 : List ProxyEntry := [⟨"http://1.2.3.4:80", some ⟨some "AS"⟩⟩]

/-- Day sections producing two schedule rows with identical tuple identity
(the first section is the skipped navigation chrome). -/
def ssEx : List DaySection :=
  [⟨none, []⟩,
   ⟨some "Lunes",
    [⟨some "10:00", some "Partido A", some "Canal Uno", some "Futbol"⟩,
     ⟨some "10:00", some "Partido A", some "Canal Uno", some "Futbol"⟩,
     ⟨some "11:00", some "Partido B", some "Canal Dos", some "Futbol"⟩]⟩]

/-- The event scraped from the duplicated rows of `ssEx`. -/
def eEx : Event := ⟨"Lunes", "10:00", "Partido A", "Canal Uno", "Futbol"⟩

/-! ## Erasure: the tagged rows project onto the two parallel string lists -/

theorem map_linkOf_entriesFor (t : List String) (e : List (String × String))
    (c : String → List String → Option String) (p : Event) :
    (entriesFor t e c p).map linkOf = linksFor t e c p := by
  unfold entriesFor linksFor qualityRows
  cases closestBase c (titulos_without_quality t) p with
  | none => rfl
  | some base =>
    simp only [List.flatMap_cons, List.flatMap_nil, List.append_nil]
    split_ifs <;> simp_all [linkOf, List.isEmpty_iff]

theorem map_titleOf_entriesFor (t : List String) (e : List (String × String))
    (c : String → List String → Option String) (p : Event) :
    (entriesFor t e c p).map titleOf = titlesFor t e c p := by
  unfold entriesFor titlesFor qualityRows
  cases closestBase c (titulos_without_quality t) p with
  | none => rfl
  | some base =>
    simp only [List.flatMap_cons, List.flatMap_nil, List.append_nil]
    split_ifs <;> simp_all [titleOf, List.isEmpty_iff]

theorem progAux_eq_reconcileAux (t : List String) (e : List (String × String))
    (c : String → List String → Option String) (last : Option String) (ps : List Event) :
    progAux t e c last ps =
      ((reconcileAux t e c last ps).map linkOf, (reconcileAux t e c last ps).map titleOf) := by
  induction ps generalizing last with
  | nil => rfl
  | cons p ps ih =>
    simp only [progAux, reconcileAux, ih, List.map_append,
      map_linkOf_entriesFor, map_titleOf_entriesFor]
    split_ifs <;> simp [linkOf, titleOf]

theorem extract_program_links_eq (pa : List (String × String)) (progs : List Event)
    (c : String → List String → Option String) :
    extract_program_links pa progs c =
      ((reconcileEntries pa progs c).map linkOf, (reconcileEntries pa progs c).map titleOf) :=
  progAux_eq_reconcileAux _ _ _ _ _

/-- C8: every reconciled snapshot keeps its parallel arrays index-aligned:
`new_enlaces`/`new_titulos` from `extract_program_links` always have equal
length (the per-step invariant holds for every intermediate state of the loop,
i.e. for every `last_date` value), and so do `enlaces`/`titulos` from
`extract_channel_links`; every append to one list is paired with an append to
its partner. -/
theorem c8_parallel_arrays_aligned (pa : List (String × String)) (progs : List Event)
    (c : String → List String → Option String) :
    (extract_program_links pa progs c).1.length = (extract_program_links pa progs c).2.length ∧
    (∀ t e last, (progAux t e c last progs).1.length = (progAux t e c last progs).2.length) ∧
    (extract_channel_links pa).1.length = (extract_channel_links pa).2.length := by
  refine ⟨?_, fun t e last => ?_, ?_⟩
  · rw [extract_program_links_eq]
    simp
  · rw [progAux_eq_reconcileAux]
    simp
  · induction pa with
    | nil => rfl
    | cons q rest ih =>
      obtain ⟨enlace, titulo⟩ := q
      simpa [extract_channel_links] using ih

/-! ## Day separators (C4) -/

theorem filter_isSep_entriesFor (t : List String) (e : List (String × String))
    (c : String → List String → Option String) (p : Event) :
    (entriesFor t e c p).filter isSep = [] := by
  unfold entriesFor qualityRows
  cases closestBase c (titulos_without_quality t) p with
  | none => rfl
  | some base =>
    simp only [List.flatMap_cons, List.flatMap_nil, List.append_nil]
    split_ifs <;> simp_all [isSep]

theorem filter_isSep_reconcileAux (t : List String) (e : List (String × String))
    (c : String → List String → Option String) (last : Option String) (ps : List Event) :
    (reconcileAux t e c last ps).filter isSep =
      (dayBoundaries last (ps.map (fun p => p.day))).map RE.sep := by
  induction ps generalizing last with
  | nil => rfl
  | cons p ps ih =>
    simp only [reconcileAux, dayBoundaries, List.map_cons, List.filter_append,
      filter_isSep_entriesFor, ih, List.map_append, List.nil_append]
    split_ifs <;> simp [isSep]

/-- C4 counterexample: three events whose days interleave as Lunes, Martes,
Lunes produce two separators for "Lunes" — not exactly one per distinct day:
the source emits a separator at every `program.day != last_date` boundary. -/
theorem c4_counterexample :
    List.countP (fun r => r == RE.sep "Lunes")
      (reconcileEntries [] [evA1, evB2, evA3] noMatch) = 2 := by decide

/-- C4 (amended): reconciliation emits exactly one DaySeparator at each point
where an event's day differs from the previous event's day (one per maximal
run of consecutive equal-day events, in input order); when all events of a
day are contiguous this is exactly one separator per distinct day in
first-seen order. -/
theorem c4_day_separator_boundaries (pa : List (String × String)) (progs : List Event)
    (c : String → List String → Option String) :
    (reconcileEntries pa progs c).filter isSep =
      (dayBoundaries none (progs.map (fun p => p.day))).map RE.sep :=
  filter_isSep_reconcileAux _ _ _ _ _

/-! ## Unmatched events (C1) -/

/-- C1 counterexample: the channel "Canal X" is not the alias, the pool is
empty so every similarity is below the cutoff (`get_close_matches` returns
`None`, the `noMatch` oracle), yet the reconciled output contains zero
UnmatchedPlaceholder rows instead of exactly one: the `if not found:` append
is nested inside `if closest_tvg_id:` and is skipped when no match exists. -/
theorem c1_counterexample :
    evX.channel ≠ "Movistar Plus+" ∧
    noMatch evX.channel (titulos_without_quality (anchorTitles [])) = none ∧
    List.countP isUnmatched (reconcileEntries [] [evX] noMatch) = 0 := by decide

/-- C1 (amended): when the channel is not the alias and step 3 yields no
match, the event contributes no output row at all — in particular no
UnmatchedPlaceholder; the placeholder is emitted only when a base title was
resolved but none of its variants exists in the raw-title set. -/
theorem c1_no_match_emits_nothing (t : List String) (e : List (String × String))
    (c : String → List String → Option String) (p : Event)
    (h1 : p.channel ≠ "Movistar Plus+")
    (h2 : c p.channel (titulos_without_quality t) = none) :
    entriesFor t e c p = [] := by
  unfold entriesFor closestBase
  simp [h1, h2]

/-- C1 witness: a concrete no-match event yields the empty contribution. -/
theorem c1_no_match_emits_nothing_witness :
    entriesFor [] [] noMatch evX = [] :=
  c1_no_match_emits_nothing [] [] noMatch evX (by decide) rfl

/-! ## Alias shortcut (C5) -/

/-- C5: for every event whose channel is literally "Movistar Plus+" the base
title is fixed to "M.Plus 1080" for every similarity oracle and every pool
(similarity scoring is bypassed), and when none of the base's suffixed or
unsuffixed variants exists in the raw-title set the event emits exactly one
UnmatchedPlaceholder. -/
theorem c5_movistar_alias (t : List String) (e : List (String × String))
    (c : String → List String → Option String) (p : Event)
    (h : p.channel = "Movistar Plus+")
    (h720 : "M.Plus 1080720" ∉ t) (h1080 : "M.Plus 10801080" ∉ t)
    (hbase : "M.Plus 1080" ∉ t) :
    (∀ c' pool, closestBase c' pool p = some "M.Plus 1080") ∧
    entriesFor t e c p = [RE.unmatched p] := by
  have e1 : "M.Plus 1080" ++ "720" = "M.Plus 1080720" := rfl
  have e2 : "M.Plus 1080" ++ "1080" = "M.Plus 10801080" := rfl
  constructor
  · intro c' pool
    unfold closestBase
    simp [h]
  · unfold entriesFor closestBase qualityRows
    simp [h, e1, e2, h720, h1080, hbase]

/-- C5 witness: the alias event over an empty pool resolves to "M.Plus 1080"
and emits exactly one UnmatchedPlaceholder. -/
theorem c5_movistar_alias_witness :
    (∀ c' pool, closestBase c' pool evMov = some "M.Plus 1080") ∧
    entriesFor [] [] noMatch evMov = [RE.unmatched evMov] :=
  c5_movistar_alias [] [] noMatch evMov rfl (by decide) (by decide) (by decide)

/-! ## Quality-suffix fan-out (C6) -/

theorem rows_eq_specFanOut (t : List String) (e : List (String × String))
    (p : Event) (base : String) :
    qualityRows t e p base ++
        (if base ∈ t then [RE.play (labelFor p base) (lookupLink e base)] else []) =
      specFanOut t e p base := by
  unfold qualityRows specFanOut
  simp [List.append_assoc]

/-- C6: whenever matching yields a (truthy) base title and at least one
variant exists, the event's rows are exactly the spec's fan-out: for each
marker in the order 720 then 1080 one playable row with that variant's link
and label when `base+marker` is a raw title, and independently one more for
the unsuffixed base when present — hence at most three playable rows. -/
theorem c6_quality_fanout (t : List String) (e : List (String × String))
    (c : String → List String → Option String) (p : Event) (base : String)
    (hcb : closestBase c (titulos_without_quality t) p = some base)
    (hb : base ≠ "") (hne : specFanOut t e p base ≠ []) :
    entriesFor t e c p = specFanOut t e p base ∧ (specFanOut t e p base).length ≤ 3 := by
  constructor
  · unfold entriesFor
    rw [hcb]
    simp only [hb, if_neg, rows_eq_specFanOut]
    simp [List.isEmpty_iff, hne]
  · unfold specFanOut
    split_ifs <;> simp

/-- C6 witness: the spec's example — pool {"RealMadridTV720",
"RealMadridTV1080"}, channel "Real Madrid TV" — yields exactly the two
suffixed playable rows with their links. -/
theorem c6_quality_fanout_witness :
    entriesFor tRM enlRM closeRM evRM = specFanOut tRM enlRM evRM "RealMadridTV" ∧
    (specFanOut tRM enlRM evRM "RealMadridTV").length ≤ 3 :=
  c6_quality_fanout tRM enlRM closeRM evRM "RealMadridTV" (by decide) (by decide) (by decide)

/-! ## Schedule deduplication (C7) -/

theorem eventKey_not_seen_of_mem_dedupAux (seen : List (String × String × String × String))
    (l : List Event) (e : Event) (he : e ∈ dedupAux seen l) : eventKey e ∉ seen := by
  induction l generalizing seen with
  | nil => simp [dedupAux] at he
  | cons x xs ih =>
    by_cases hx : eventKey x ∈ seen
    · rw [dedupAux, if_pos hx] at he
      exact ih seen he
    · rw [dedupAux, if_neg hx] at he
      rcases List.mem_cons.mp he with rfl | h2
      · exact hx
      · have h3 := ih _ h2
        intro hcon
        exact h3 (List.mem_cons_of_mem _ hcon)

theorem dedupAux_sublist (seen : List (String × String × String × String))
    (l : List Event) : (dedupAux seen l).Sublist l := by
  induction l generalizing seen with
  | nil => simp [dedupAux]
  | cons x xs ih =>
    rw [dedupAux]
    split_ifs with hx
    · exact (ih seen).trans (List.sublist_cons_self x xs)
    · exact (ih (eventKey x :: seen)).cons₂ x

theorem dedupAux_pairwise (seen : List (String × String × String × String))
    (l : List Event) :
    (dedupAux seen l).Pairwise (fun a b => eventKey a ≠ eventKey b) := by
  induction l generalizing seen with
  | nil => simp [dedupAux]
  | cons x xs ih =>
    rw [dedupAux]
    split_ifs with hx
    · exact ih seen
    · refine List.Pairwise.cons (fun y hy => ?_) (ih (eventKey x :: seen))
      have h3 := eventKey_not_seen_of_mem_dedupAux _ _ _ hy
      intro hcon
      exact h3 (by rw [← hcon]; exact List.mem_cons_self _ _)

theorem countP_dedupAux_seen (seen : List (String × String × String × String))
    (l : List Event) (k : String × String × String × String) (hk : k ∈ seen) :
    (dedupAux seen l).countP (fun x => decide (eventKey x = k)) = 0 := by
  induction l generalizing seen with
  | nil => simp [dedupAux]
  | cons x xs ih =>
    rw [dedupAux]
    split_ifs with hx
    · exact ih seen hk
    · have hne : eventKey x ≠ k := fun hcon => hx (hcon ▸ hk)
      rw [List.countP_cons]
      simp [hne, ih (eventKey x :: seen) (List.mem_cons_of_mem _ hk)]

theorem countP_dedupAux_new (seen : List (String × String × String × String))
    (l : List Event) (k : String × String × String × String)
    (hk : k ∉ seen) (hmem : k ∈ l.map eventKey) :
    (dedupAux seen l).countP (fun x => decide (eventKey x = k)) = 1 := by
  induction l generalizing seen with
  | nil => simp at hmem
  | cons x xs ih =>
    rw [dedupAux]
    split_ifs with hx
    · have hne : eventKey x ≠ k := fun hcon => hk (hcon ▸ hx)
      rcases List.mem_map.mp hmem with ⟨y, hy, hyk⟩
      rcases List.mem_cons.mp hy with rfl | hy2
      · exact absurd hyk hne
      · exact ih seen hk (hyk ▸ List.mem_map_of_mem _ hy2)
    · rw [List.countP_cons]
      by_cases hxk : eventKey x = k
      · rw [countP_dedupAux_seen _ _ _ (hxk ▸ List.mem_cons_self _ _)]
        simp [hxk]
      · have hrest : (dedupAux (eventKey x :: seen) xs).countP
            (fun z => decide (eventKey z = k)) = 1 := by
          rcases List.mem_map.mp hmem with ⟨y, hy, hyk⟩
          rcases List.mem_cons.mp hy with rfl | hy2
          · exact absurd hyk hxk
          · refine ih (eventKey x :: seen) ?_ (hyk ▸ List.mem_map_of_mem _ hy2)
            intro hcon
            rcases List.mem_cons.mp hcon with h | h
            · exact hxk h.symm
            · exact hk h
        simp [hxk, hrest]

theorem find?_of_mem_dedupAux (seen : List (String × String × String × String))
    (l : List Event) (e : Event) (he : e ∈ dedupAux seen l) :
    l.find? (fun y => decide (eventKey y = eventKey e)) = some e := by
  induction l generalizing seen with
  | nil => simp [dedupAux] at he
  | cons x xs ih =>
    by_cases hx : eventKey x ∈ seen
    · rw [dedupAux, if_pos hx] at he
      have hkey := eventKey_not_seen_of_mem_dedupAux _ _ _ he
      have hne : eventKey x ≠ eventKey e := fun hcon => hkey (hcon ▸ hx)
      rw [List.find?_cons_of_neg _ (by simpa using hne)]
      exact ih seen he
    · rw [dedupAux, if_neg hx] at he
      rcases List.mem_cons.mp he with rfl | h2
      · rw [List.find?_cons_of_pos _ (by simp)]
      · have hkey := eventKey_not_seen_of_mem_dedupAux _ _ _ h2
        have hne : eventKey x ≠ eventKey e :=
          fun hcon => hkey (hcon ▸ List.mem_cons_self _ _)
        rw [List.find?_cons_of_neg _ (by simpa using hne)]
        exact ih _ h2

/-- C7: the schedule parser never yields two events equal on
(day, time, title, channel); every tuple identity occurring among the parsed
rows survives exactly once; each surviving event is the first row bearing its
key; and the surviving events form a subsequence of the parsed rows (order
preserved). -/
theorem c7_dedup_first_wins (sections : List DaySection) (e : Event)
    (he : e ∈ rawEvents sections) :
    (get_tv_programs sections).Pairwise (fun a b => eventKey a ≠ eventKey b) ∧
    (get_tv_programs sections).Sublist (rawEvents sections) ∧
    (get_tv_programs sections).countP (fun x => decide (eventKey x = eventKey e)) = 1 ∧
    (∀ x ∈ get_tv_programs sections,
      (rawEvents sections).find? (fun y => decide (eventKey y = eventKey x)) = some x) := by
  refine ⟨dedupAux_pairwise _ _, dedupAux_sublist _ _, ?_, ?_⟩
  · exact countP_dedupAux_new _ _ _ (by simp) (List.mem_map_of_mem _ he)
  · intro x hx
    exact find?_of_mem_dedupAux _ _ _ hx

/-- C7 witness: the concrete sections with a duplicated row keep exactly one
copy of the duplicated event. -/
theorem c7_dedup_first_wins_witness :
    eEx ∈ rawEvents ssEx ∧
    ((get_tv_programs ssEx).Pairwise (fun a b => eventKey a ≠ eventKey b) ∧
     (get_tv_programs ssEx).Sublist (rawEvents ssEx) ∧
     (get_tv_programs ssEx).countP (fun x => decide (eventKey x = eventKey eEx)) = 1 ∧
     (∀ x ∈ get_tv_programs ssEx,
       (rawEvents ssEx).find? (fun y => decide (eventKey y = eventKey x)) = some x)) :=
  ⟨by decide, c7_dedup_first_wins ssEx eEx (by decide)⟩

/-! ## Cache round-trip (C9) -/

theorem allStrings_map (l : List String) :
    allStrings (l.map Json.jstr) = some l := by
  induction l with
  | nil => rfl
  | cons s rest ih => simp [allStrings, ih]

/-- C9: saving a snapshot and loading the cache back returns the same stored
value, and decoding it field by field recovers a snapshot field-equal to the
one saved (the textual `json.dump`/`json.load` serialization of the standard
library is modelled as exact on these values). -/
theorem c9_cache_roundtrip (S : Snapshot) (st : Option Json) :
    load_cache (save_cache st (encodeSnapshot S)) = encodeSnapshot S ∧
    decodeSnapshot (load_cache (save_cache st (encodeSnapshot S))) = some S := by
  refine ⟨rfl, ?_⟩
  simp [decodeSnapshot, encodeSnapshot, load_cache, save_cache, jlookup, allStrings_map]

/-! ## Acquisition pipeline (C2, C3) -/

/-- C2 counterexample: the direct fetch of the primary URL would succeed
(`gOk` returns the nonempty body "body" for every request), yet with an empty
proxy list `update_list` returns the empty result: the proxy list is fetched
and checked (lines 296-302) before the direct fetch is ever attempted. -/
theorem c2_counterexample :
    update_list [] gOk parse0 [] noMatch "2026-01-01 00:00:00" = none ∧
    truthyO (gOk url_selected none) = true := by decide

/-- C2 (amended): the proxy candidate list is fetched and checked first on
every invocation; when it is empty the pipeline yields the empty result
without attempting the direct fetch; when it is nonempty the direct fetch of
the primary URL runs first, and a nonempty direct response is reconciled and
returned without consulting any proxy. -/
theorem c2_proxy_gate_then_direct (proxies : List ProxyEntry)
    (g : String → Option String → Option String)
    (parseA : String → List (String × String)) (programs : List Event)
    (closest : String → List String → Option String) (now : String) :
    (proxies = [] → update_list proxies g parseA programs closest now = none) ∧
    (proxies ≠ [] → ∀ s, g url_selected none = some s → s ≠ "" →
      update_list proxies g parseA programs closest now =
        some (buildSnapshot parseA programs closest s now)) := by
  constructor
  · intro h
    subst h
    rfl
  · intro hne s hs hsne
    cases proxies with
    | nil => exact absurd rfl hne
    | cons p rest =>
      unfold update_list acquire afterFallback
      simp [hs, truthyO, hsne]

/-- C2 witness: with a nonempty proxy list and a succeeding direct fetch the
pipeline returns the snapshot built from the direct response. -/
theorem c2_proxy_gate_then_direct_witness :
    update_list proxies1 gOk parse0 [] noMatch "t" =
      some (buildSnapshot parse0 [] noMatch "body" "t") :=
  (c2_proxy_gate_then_direct proxies1 gOk parse0 [] noMatch "t").2
    (by decide) "body" rfl (by decide)

/-- C3 (code bug witness): the direct fetch of the primary URL fails, the
single Asian proxy fails, and the secondary URL would return a nonempty body
(`gMirror`), yet `update_list` returns the empty result: the
`for ... else: return {}` of lines 326-332 exits before the secondary-URL
block of lines 334-344, which is unreachable. -/
theorem c3_fallback_never_attempted :
    update_list proxies1 gMirror parse0 [] noMatch "t" = none ∧
    truthyO (gMirror fallback_url none) = true := by decide

/-! ## Quality markers stripped anywhere (C10) -/

theorem replaceAll_no_first (p0 : Char) (pr rep : List Char) (s : List Char)
    (h : ∀ ch ∈ s, ch ≠ p0) :
    replaceAll (p0 :: pr) rep s = s := by
  induction s with
  | nil => simp [replaceAll]
  | cons c cs ih =>
    have hc : (p0 == c) = false :=
      beq_eq_false_iff_ne.mpr fun hh => h c (List.mem_cons_self _ _) hh.symm
    have ih2 := ih fun ch hch => h ch (List.mem_cons_of_mem _ hch)
    simp [replaceAll, List.isPrefixOf, hc, ih2]

theorem replaceAll_insert (p0 : Char) (pr rep : List Char) (a b : List Char)
    (ha : ∀ ch ∈ a, ch ≠ p0) :
    replaceAll (p0 :: pr) rep (a ++ (p0 :: pr) ++ b) =
      a ++ rep ++ replaceAll (p0 :: pr) rep b := by
  induction a with
  | nil =>
    have hcond : ((!(p0 :: pr).isEmpty) && (p0 :: pr).isPrefixOf (p0 :: (pr ++ b))) = true := by
      have hpre : (p0 :: pr) <+: (p0 :: (pr ++ b)) := by
        rw [show p0 :: (pr ++ b) = (p0 :: pr) ++ b from rfl]
        exact List.prefix_append _ _
      simp [List.isPrefixOf_iff_prefix, hpre]
    show replaceAll (p0 :: pr) rep (p0 :: (pr ++ b)) = [] ++ rep ++ replaceAll (p0 :: pr) rep b
    rw [replaceAll, if_pos hcond, show (p0 :: pr).length - 1 = pr.length by simp,
      List.drop_left, List.nil_append]
  | cons x a' ih =>
    have hx : (p0 == x) = false :=
      beq_eq_false_iff_ne.mpr fun hh => ha x (List.mem_cons_self _ _) hh.symm
    have ih2 := ih fun ch hch => ha ch (List.mem_cons_of_mem _ hch)
    have ih3 : replaceAll (p0 :: pr) rep (a' ++ (p0 :: (pr ++ b))) =
        a' ++ (rep ++ replaceAll (p0 :: pr) rep b) := by
      simpa [List.append_assoc] using ih2
    rw [show (x :: a') ++ (p0 :: pr) ++ b = x :: (a' ++ (p0 :: pr) ++ b) by simp, replaceAll]
    simp [List.isPrefixOf, hx, ih3]

theorem stripQuality_chars (a b : List Char)
    (ha : ∀ ch ∈ a, ch ∉ ['7', '2', '0', '1', '8'])
    (hb : ∀ ch ∈ b, ch ∉ ['7', '2', '0', '1', '8']) :
    replaceAll q1080 [] (replaceAll q720 [] (a ++ q720 ++ b)) = a ++ b := by
  have ha7 : ∀ ch ∈ a, ch ≠ '7' := fun ch hch hh => ha ch hch (by rw [hh]; simp)
  have hb7 : ∀ ch ∈ b, ch ≠ '7' := fun ch hch hh => hb ch hch (by rw [hh]; simp)
  have hab1 : ∀ ch ∈ a ++ [] ++ b, ch ≠ '1' := by
    intro ch hch hh
    rcases List.mem_append.mp hch with hch2 | hch2
    · rcases List.mem_append.mp hch2 with hch3 | hch3
      · exact ha ch hch3 (by rw [hh]; simp)
      · simp at hch3
    · exact hb ch hch2 (by rw [hh]; simp)
  rw [show q720 = '7' :: ['2', '0'] from rfl, show q1080 = '1' :: ['0', '8', '0'] from rfl,
    replaceAll_insert '7' ['2', '0'] [] a b ha7,
    replaceAll_no_first '7' ['2', '0'] [] b hb7,
    replaceAll_no_first '1' ['0', '8', '0'] [] (a ++ [] ++ b) hab1]
  simp

/-- C10: the comparison pool deletes the digit sequences "720" and "1080"
wherever they occur in a raw title, not only as a trailing quality suffix:
for any title of shape `a ++ "720" ++ b` with marker-free `a`, `b` and the
marker strictly internal, the pool entry is `a ++ b` (characters removed from
the middle), the suffix-only stripper leaves the title unchanged, and the
pool entry differs from the raw title — so the matched base need not equal
the raw title minus a suffix. -/
theorem c10_quality_stripped_anywhere (a b : List Char)
    (ha : ∀ ch ∈ a, ch ∉ ['7', '2', '0', '1', '8'])
    (hb : ∀ ch ∈ b, ch ∉ ['7', '2', '0', '1', '8'])
    (hbne : b ≠ []) :
    titulos_without_quality [(a ++ q720 ++ b).asString] = [(a ++ b).asString] ∧
    specStripTrailingL (a ++ q720 ++ b) = a ++ q720 ++ b ∧
    (a ++ q720 ++ b).asString ≠ (a ++ b).asString := by
  refine ⟨?_, ?_, ?_⟩
  · simp only [titulos_without_quality, List.map_cons, List.map_nil, stripQuality]
    rw [show ((a ++ q720 ++ b).asString).toList = a ++ q720 ++ b from rfl,
      stripQuality_chars a b ha hb]
  · rcases List.eq_nil_or_concat' b with rfl | ⟨b', bl, rfl⟩
    · exact absurd rfl hbne
    · have hblmem : bl ∈ b' ++ [bl] := by simp
      have hbl : bl ≠ '0' := fun hh => hb bl hblmem (by rw [hh]; simp)
      have hlast : (a ++ q720 ++ (b' ++ [bl])).getLast? = some bl := by
        rw [show a ++ q720 ++ (b' ++ [bl]) = (a ++ q720 ++ b') ++ [bl] by simp]
        exact List.getLast?_concat _
      have h720 : q720.isSuffixOf (a ++ q720 ++ (b' ++ [bl])) = false := by
        by_contra hcon
        have hsf : q720 <:+ a ++ (q720 ++ (b' ++ [bl])) := by simpa using hcon
        rcases hsf with ⟨u, hu⟩
        have h0 : (u ++ q720).getLast? = some '0' := by
          rw [show u ++ q720 = (u ++ ['7', '2']) ++ ['0'] by simp [q720]]
          exact List.getLast?_concat _
        have hb0 : (u ++ q720).getLast? = some bl := by
          rw [hu, show a ++ (q720 ++ (b' ++ [bl])) = (a ++ q720 ++ b') ++ [bl] by simp]
          exact List.getLast?_concat _
        rw [h0] at hb0
        exact hbl (by injection hb0 with hh; exact hh.symm)
      have h1080 : q1080.isSuffixOf (a ++ q720 ++ (b' ++ [bl])) = false := by
        by_contra hcon
        have hsf : q1080 <:+ a ++ (q720 ++ (b' ++ [bl])) := by simpa using hcon
        rcases hsf with ⟨u, hu⟩
        have h0 : (u ++ q1080).getLast? = some '0' := by
          rw [show u ++ q1080 = (u ++ ['1', '0', '8']) ++ ['0'] by simp [q1080]]
          exact List.getLast?_concat _
        have hb0 : (u ++ q1080).getLast? = some bl := by
          rw [hu, show a ++ (q720 ++ (b' ++ [bl])) = (a ++ q720 ++ b') ++ [bl] by simp]
          exact List.getLast?_concat _
        rw [h0] at hb0
        exact hbl (by injection hb0 with hh; exact hh.symm)
      unfold specStripTrailingL
      rw [h720, h1080]
      simp
  · intro hcon
    have h2 : a ++ q720 ++ b = a ++ b := congrArg String.toList hcon
    have h3 := congrArg List.length h2
    simp [q720] at h3
    omega

/-- C10 witness: the internal marker of "Liga720Max" is deleted from the
middle of the pool entry while the suffix-only stripper leaves the raw title
unchanged. -/
theorem c10_quality_stripped_anywhere_witness :
    titulos_without_quality [(['L', 'i', 'g', 'a'] ++ q720 ++ ['M', 'a', 'x']).asString] =
        [(['L', 'i', 'g', 'a'] ++ ['M', 'a', 'x']).asString] ∧
    specStripTrailingL (['L', 'i', 'g', 'a'] ++ q720 ++ ['M', 'a', 'x']) =
        ['L', 'i', 'g', 'a'] ++ q720 ++ ['M', 'a', 'x'] ∧
    (['L', 'i', 'g', 'a'] ++ q720 ++ ['M', 'a', 'x']).asString ≠
        (['L', 'i', 'g', 'a'] ++ ['M', 'a', 'x']).asString :=
  c10_quality_stripped_anywhere ['L', 'i', 'g', 'a'] ['M', 'a', 'x']
    (by decide) (by decide) (by decide)

end Barco
